import Mathlib

/-!
Verification of the maven-go repository cleaner.

The development embeds, as executable Lean definitions:
* the data model shared between frontend and backend (`InvalidArtifact`,
  `CleanItem`, `CleanResult`);
* the backend engine (repository-path resolution, archive validation,
  descriptor-content heuristic, tree scan, batch cleanup), modelled from the
  specification because the Rust sources (`src-tauri/src/lib.rs`) are not part
  of the available sources;
* the frontend `cleanAll` handler, translated from `src/App.vue`.

Strings are compared through explicit character-list helpers so that every
definition evaluates inside the kernel.
-/

/-- `leadsWith pre l` is true when the character list `l` begins with `pre`
(character-by-character, case-sensitive). -/
def leadsWith : List Char → List Char → Bool
  | [], _ => true
  | _ :: _, [] => false
  | a :: as, b :: bs => a == b && leadsWith as bs

/-- `occursIn needle hay` is true when `needle` occurs as a contiguous
substring of `hay` (case-sensitive). -/
def occursIn (needle : List Char) : List Char → Bool
  | [] => needle.isEmpty
  | c :: t => leadsWith needle (c :: t) || occursIn needle t

/-- `strEndsWith s suf` mirrors `str::ends_with` / `String.prototype.endsWith`. -/
def strEndsWith (s suf : String) : Bool :=
  leadsWith suf.data.reverse s.data.reverse

/-- `strStartsWith s pre` mirrors `str::starts_with`. -/
def strStartsWith (s p : String) : Bool :=
  leadsWith p.data s.data

/-- `strDropRight s n` removes the last `n` characters of `s` (used to strip
the 4-character `.jar` / `.pom` extension from a file name). -/
def strDropRight (s : String) (n : Nat) : String :=
  String.mk (s.data.take (s.data.length - n))

/-- Shape of one scan finding, from the `InvalidArtifact` IPC payload
(`src/App.vue` lines 5–9): directory, file name without extension, and a
human-readable corruption reason. -/
structure InvalidArtifact where
  folder : String
  base_name : String
  reason : String
deriving Repr, DecidableEq

/-- Shape of one deletion request item (`src/App.vue` lines 11–14). -/
structure CleanItem where
  folder : String
  base_name : String
deriving Repr, DecidableEq

/-- Shape of the batch-deletion outcome (`src/App.vue` lines 16–19):
a success count plus one error string per failed item. -/
structure CleanResult where
  deleted_count : Nat
  errors : List String
deriving Repr, DecidableEq

/-- Modelled from the spec: central-directory compression method identifiers.
The backend's archive validator (absent from the available sources) must accept
store/deflate, bzip2 and zstd; anything else is an unsupported method. -/
inductive CompressionMethod where
  | stored
  | deflated
  | bzip2
  | zstd
  | other (id : Nat)
deriving Repr, DecidableEq

/-- Modelled from the spec: the compression methods the archive validator
accepts ("store/deflate (standard), bzip2, and a modern dictionary-based
compressor (zstd-class)"). -/
def methodSupported : CompressionMethod → Bool
  | .stored => true
  | .deflated => true
  | .bzip2 => true
  | .zstd => true
  | .other _ => false

/-- Abstract content of a file on disk: either an archive container described
by the compression methods of its central-directory entries and a flag telling
whether the byte stream is truncated (central directory unreadable), or plain
text bytes. -/
inductive FileData where
  | archive (methods : List CompressionMethod) (truncated : Bool)
  | text (content : List Char)
deriving Repr, DecidableEq

/-- Modelled from the spec: the ArchiveValidator, absent from the available
sources. It opens the file as a central-directory archive; a truncated stream
or an unparseable container (including non-archive bytes) yields the
archive-structure reason, an unsupported compression method likewise fails the
structural parse, and otherwise the file is valid. Returns `some reason` when
invalid, `none` when valid. -/
def archiveReason : FileData → Option String
  | .archive methods truncated =>
    if truncated then some "invalid archive structure"
    else if methods.all methodSupported then none
    else some "invalid archive structure"
  | .text _ => some "invalid archive structure"

/-- The closed set of proxy-error-page markers searched for in descriptor
files, from the README detection rules: `<!DOCTYPE html>`,
`<title>Harbor</title>`, `Login to Harbor`. -/
def markers : List (List Char) :=
  ["<!DOCTYPE html>".data, "<title>Harbor</title>".data, "Login to Harbor".data]

/-- Modelled from the spec: the ContentHeuristic, absent from the available
sources. Reads the descriptor bytes and reports the first marker of the closed
set found as a case-sensitive substring; no schema validation is performed.
Returns `some reason` when a marker matches, `none` otherwise. -/
def contentReason : FileData → Option String
  | .text content =>
    match markers.find? (fun m => occursIn m content) with
    | some m => some ("contains proxy error page: " ++ String.mk m)
    | none => none
  | .archive _ _ => none

/-- A filesystem tree: regular files carry abstract content, directories carry
a list of children. -/
inductive FsEntry where
  | file (name : String) (data : FileData)
  | dir (name : String) (children : List FsEntry)

/-- Modelled from the spec: per-file dispatch of the ScanEngine. Files ending
in `.jar` go to the archive validator, files ending in `.pom` go to the
content heuristic, all other files are ignored. -/
def fileReason (name : String) (data : FileData) : Option String :=
  if strEndsWith name ".jar" then archiveReason data
  else if strEndsWith name ".pom" then contentReason data
  else none

/-- One scan finding for a single file: the flagged file becomes an
`InvalidArtifact` whose `folder` is the enclosing directory path and whose
`base_name` drops the 4-character extension. -/
def scanFile (path name : String) (data : FileData) : List InvalidArtifact :=
  match fileReason name data with
  | some r => [⟨path, strDropRight name 4, r⟩]
  | none => []

mutual

/-- Modelled from the spec: the ScanEngine traversal, absent from the
available sources. Recursively walks the tree, skipping any directory whose
name starts with `.`, and dispatches every candidate file to its validator. -/
def scanEntry (path : String) : FsEntry → List InvalidArtifact
  | .file name data => scanFile path name data
  | .dir name children =>
    if strStartsWith name "." then []
    else scanList (path ++ "/" ++ name) children

/-- Scan of a list of sibling directory entries, in order. -/
def scanList (path : String) : List FsEntry → List InvalidArtifact
  | [] => []
  | e :: es => scanEntry path e ++ scanList path es

end

/-- Modelled from the spec: `scan_invalid_artifacts` walks the entries of the
repository root directory. -/
def scan_invalid_artifacts (root : String) (entries : List FsEntry) :
    List InvalidArtifact :=
  scanList root entries

/-- One run of the parallel scan: the aggregation order of the worker pool is
not guaranteed, so any permutation of the single-threaded traversal result is
a possible observed output. -/
def ScanRun (root : String) (entries : List FsEntry) (l : List InvalidArtifact) : Prop :=
  l.Perm (scan_invalid_artifacts root entries)

mutual

/-- `corruptionHiddenOnly t` holds when every file reachable without entering
a hidden directory (name starting with `.`) is clean, i.e. any corrupted
artifact of the tree sits inside a hidden directory. -/
def corruptionHiddenOnly : FsEntry → Bool
  | .file name data => (fileReason name data).isNone
  | .dir name children =>
    strStartsWith name "." || corruptionHiddenOnlyList children

/-- List version of `corruptionHiddenOnly`. -/
def corruptionHiddenOnlyList : List FsEntry → Bool
  | [] => true
  | e :: es => corruptionHiddenOnly e && corruptionHiddenOnlyList es

end

/-- State of the filesystem as seen by the cleanup executor: the set of
existing file paths, and the subset whose deletion is denied (permission). -/
structure Fs where
  files : List String
  locked : List String
deriving Repr, DecidableEq

/-- The recognized primary extensions of an artifact: the archive and the
descriptor. Deleting a primary file is mandatory for an item to count. -/
def primaryExts : List String := [".jar", ".pom"]

/-- Known sibling files of an artifact (checksums); their deletion is
best-effort and never reported. -/
def siblingExts : List String := [".jar.sha1", ".pom.sha1", ".jar.md5", ".pom.md5"]

/-- Full path of one candidate file of an item. -/
def itemPath (it : CleanItem) (ext : String) : String :=
  it.folder ++ "/" ++ it.base_name ++ ext

/-- The primary candidate paths of an item. -/
def primaryPaths (it : CleanItem) : List String :=
  primaryExts.map (itemPath it)

/-- The best-effort sibling paths of an item. -/
def siblingPaths (it : CleanItem) : List String :=
  siblingExts.map (itemPath it)

/-- Every path an item's deletion may touch. -/
def allPaths (it : CleanItem) : List String :=
  primaryPaths it ++ siblingPaths it

/-- Modelled from the spec: the per-item outcome of the CleanupExecutor,
absent from the available sources. If no primary file of the item exists the
item fails (file already gone); if a present primary file is
permission-locked the item fails (permission denied); otherwise the item
succeeds. -/
def itemErr (fs : Fs) (it : CleanItem) : Option String :=
  let present := (primaryPaths it).filter (fun p => fs.files.contains p)
  if present.isEmpty then
    some ("failed to delete " ++ it.folder ++ "/" ++ it.base_name ++ ": file not found")
  else if present.any (fun p => fs.locked.contains p) then
    some ("failed to delete " ++ it.folder ++ "/" ++ it.base_name ++ ": permission denied")
  else none

/-- Modelled from the spec: processing of one item. On success the primary
files are removed; the sibling checksum files are removed best-effort in every
case; the filesystem's permission set is untouched. -/
def cleanItem (fs : Fs) (it : CleanItem) : Fs × Option String :=
  let err := itemErr fs it
  let doomed := (if err.isNone then primaryPaths it else []) ++ siblingPaths it
  (⟨fs.files.filter (fun p => !doomed.contains p), fs.locked⟩, err)

/-- Modelled from the spec: `clean_artifacts` processes the items in order,
never aborts the batch, counts one success per item whose primary deletion
succeeds, and appends one error string per failed item in detection order. -/
def clean_artifacts (fs : Fs) : List CleanItem → Fs × CleanResult
  | [] => (fs, ⟨0, []⟩)
  | it :: rest =>
    let step := cleanItem fs it
    let next := clean_artifacts step.1 rest
    match step.2 with
    | some e => (next.1, ⟨next.2.deleted_count, e :: next.2.errors⟩)
    | none => (next.1, ⟨next.2.deleted_count + 1, next.2.errors⟩)

/-- Two items are disjoint when no file path touched by one belongs to the
other: no collision between their primary or sibling paths. -/
def ItemsDisjoint (a b : CleanItem) : Prop :=
  ∀ p ∈ allPaths a, p ∉ allPaths b

/-- `itemGone fs it` holds when none of the item's primary files exists, i.e.
the referenced files have already been deleted. -/
def itemGone (fs : Fs) (it : CleanItem) : Bool :=
  (primaryPaths it).all (fun p => !fs.files.contains p)

/-- Modelled from the spec: the `get_maven_repo_path` resolution chain, absent
from the available sources. Four strategies are tried in the fixed order
`mvn -v` output, `$MAVEN_HOME/conf/settings.xml`, `~/.m2/settings.xml`,
conventional default directory; each strategy's failure is non-fatal and the
first success wins; only exhaustion of all four yields the resolution error. -/
def get_maven_repo_path (mvnCmdOut envSettings userSettings defaultDir : Option String) :
    Except String String :=
  match mvnCmdOut with
  | some p => .ok p
  | none =>
    match envSettings with
    | some p => .ok p
    | none =>
      match userSettings with
      | some p => .ok p
      | none =>
        match defaultDir with
        | some p => .ok p
        | none => .error "ResolutionError: no viable repository path found"

/-- The reactive state of the frontend (`src/App.vue` lines 21–28). -/
structure FrontendState where
  repoPath : String
  customPath : String
  invalidArtifacts : List InvalidArtifact
  isScanning : Bool
  isCleaning : Bool
  errorMsg : String
  successMsg : String
  showSettings : Bool
deriving Repr, DecidableEq

/-- Projection of a scan finding to a deletion request item
(`src/App.vue` lines 86–89). -/
def toCleanItem (a : InvalidArtifact) : CleanItem :=
  ⟨a.folder, a.base_name⟩

/-- Error banner shown when the clean call reports per-item errors
(`src/App.vue` line 94): count plus the first five error strings. -/
def cleanErrorSummary (errors : List String) : String :=
  "删除完成，但有 " ++ toString errors.length ++ " 个错误:\n" ++
    String.intercalate "\n" (errors.take 5)

/-- Success banner shown when the clean call reports no error
(`src/App.vue` line 96). -/
def cleanSuccessSummary (n : Nat) : String :=
  "成功删除 " ++ toString n ++ " 个文件！"

/-- The `cleanAll` handler of `src/App.vue` (lines 72–105). `confirmed` is the
outcome of the confirmation dialog and `invokeClean` the backend call; the
second component records the item list submitted to the backend (`none` when
no call was made). -/
def cleanAll (s : FrontendState) (confirmed : Bool)
    (invokeClean : List CleanItem → Except String CleanResult) :
    FrontendState × Option (List CleanItem) :=
  if s.invalidArtifacts.isEmpty then (s, none)
  else if confirmed = false then (s, none)
  else
    let items := s.invalidArtifacts.map toCleanItem
    match invokeClean items with
    | .ok result =>
      if result.errors.length > 0 then
        ({ s with errorMsg := cleanErrorSummary result.errors, successMsg := "",
                  invalidArtifacts := [], isCleaning := false }, some items)
      else
        ({ s with successMsg := cleanSuccessSummary result.deleted_count, errorMsg := "",
                  invalidArtifacts := [], isCleaning := false }, some items)
    | .error err =>
      ({ s with errorMsg := "清理失败: " ++ err, successMsg := "",
                isCleaning := false }, some items)

/-- A truncated-archive finding used in the example runs below. -/
def artifactJar : InvalidArtifact :=
  ⟨"r/com/acme", "bad", "invalid archive structure"⟩

/-- A proxy-error-page finding used in the example runs below. -/
def artifactPom : InvalidArtifact :=
  ⟨"r/com/acme", "bad", "contains proxy error page: <!DOCTYPE html>"⟩

/-- A small repository holding one truncated archive and one descriptor that
is a Harbor error page. -/
def demoEntries : List FsEntry :=
  [FsEntry.dir "com" [FsEntry.dir "acme"
    [FsEntry.file "bad.jar" (FileData.archive [CompressionMethod.deflated] true),
     FsEntry.file "bad.pom" (FileData.text "<!DOCTYPE html>".data)]]]

/-- One possible aggregation order of the scan over `demoEntries`. -/
def demoRun1 : List InvalidArtifact := [artifactJar, artifactPom]

/-- The other aggregation order of the scan over `demoEntries`. -/
def demoRun2 : List InvalidArtifact := [artifactPom, artifactJar]

/-- A repository whose only corrupted file sits inside a hidden directory. -/
def hiddenDemo : List FsEntry :=
  [FsEntry.dir ".git" [FsEntry.file "bad.jar" (FileData.archive [] true)],
   FsEntry.dir "com" [FsEntry.file "ok.jar" (FileData.archive [CompressionMethod.deflated] false)]]

/-- A filesystem holding just the archive of item `itemX`, nothing locked. -/
def fsDemo : Fs := ⟨["a/x.jar"], []⟩

/-- A deletable item of `fsDemo`. -/
def itemX : CleanItem := ⟨"a", "x"⟩

/-- An item whose files are already gone from `fsDemo`. -/
def itemY : CleanItem := ⟨"b", "y"⟩

/-- A two-item clean request: one deletable item, one already-gone item. -/
def itemsDemo : List CleanItem := [itemX, itemY]

/-- The same request in the opposite order. -/
def itemsDemoSwapped : List CleanItem := [itemY, itemX]

/-- A frontend state displaying one invalid artifact. -/
def stateWithA : FrontendState := ⟨"r", "r", [artifactJar], false, false, "", "", false⟩

/-- A frontend state displaying no invalid artifact. -/
def stateNoArtifacts : FrontendState := ⟨"r", "r", [], false, false, "", "", false⟩

/-- A clean result that resolves but carries one per-item error. -/
def demoCleanResult : CleanResult :=
  ⟨0, ["failed to delete r/com/acme/bad: file not found"]⟩

/-- A backend stub whose clean call resolves with `demoCleanResult`. -/
def invokeOkWithErrors : List CleanItem → Except String CleanResult :=
  fun _ => Except.ok demoCleanResult

/-- `leadsWith` tests exactly the prefix relation on character lists. -/
theorem leadsWith_iff : ∀ (n h : List Char), leadsWith n h = true ↔ ∃ t, h = n ++ t
  | [], h => by simp [leadsWith]
  | _ :: _, [] => by simp [leadsWith]
  | a :: as, b :: bs => by
    simp only [leadsWith, Bool.and_eq_true, beq_iff_eq]
    constructor
    · rintro ⟨rfl, hl⟩
      obtain ⟨t, rfl⟩ := (leadsWith_iff as bs).mp hl
      exact ⟨t, rfl⟩
    · rintro ⟨t, ht⟩
      injection ht with h1 h2
      subst h1
      exact ⟨rfl, (leadsWith_iff as bs).mpr ⟨t, h2⟩⟩

/-- `occursIn` tests exactly the contiguous-substring relation on character
lists. -/
theorem occursIn_iff : ∀ (n h : List Char),
    occursIn n h = true ↔ ∃ pre post, h = pre ++ n ++ post
  | n, [] => by
    simp only [occursIn, List.isEmpty_iff]
    constructor
    · rintro rfl
      exact ⟨[], [], rfl⟩
    · rintro ⟨pre, post, hp⟩
      rcases List.append_eq_nil.mp hp.symm with ⟨h1, h2⟩
      rcases List.append_eq_nil.mp h1 with ⟨-, h3⟩
      exact h3
  | n, c :: t => by
    simp only [occursIn, Bool.or_eq_true]
    constructor
    · rintro (hl | ho)
      · obtain ⟨tail, htail⟩ := (leadsWith_iff n (c :: t)).mp hl
        exact ⟨[], tail, by simpa using htail⟩
      · obtain ⟨pre, post, rfl⟩ := (occursIn_iff n t).mp ho
        exact ⟨c :: pre, post, rfl⟩
    · rintro ⟨pre, post, hp⟩
      cases pre with
      | nil => exact Or.inl ((leadsWith_iff n (c :: t)).mpr ⟨post, by simpa using hp⟩)
      | cons p ps =>
        injection hp with h1 h2
        exact Or.inr ((occursIn_iff n t).mpr ⟨ps, post, h2⟩)

/-- The length of a `filterMap` counts the inputs mapped to `some`. -/
theorem length_filterMap_eq_countP {α β : Type} (f : α → Option β) :
    ∀ l : List α, (l.filterMap f).length = l.countP (fun a => (f a).isSome)
  | [] => rfl
  | a :: t => by
    cases h : f a <;>
      simp [List.filterMap_cons, h, List.countP_cons, length_filterMap_eq_countP f t]

/-- Counting the complement of a Boolean predicate. -/
theorem countP_not_eq {α : Type} (p : α → Bool) :
    ∀ l : List α, l.countP (fun a => !p a) = l.length - l.countP p
  | [] => rfl
  | a :: t => by
    have hle : t.countP p ≤ t.length := List.countP_le_length p
    cases h : p a <;>
      simp [List.countP_cons, h, countP_not_eq p t, Nat.succ_sub hle]

/-- `filterMap` only depends on the values of the function on the list. -/
theorem filterMap_congr_mem {α β : Type} {f g : α → Option β} :
    ∀ {l : List α}, (∀ a ∈ l, f a = g a) → l.filterMap f = l.filterMap g
  | [], _ => rfl
  | a :: t, h => by
    have ht : t.filterMap f = t.filterMap g :=
      filterMap_congr_mem (fun x hx => h x (List.mem_cons_of_mem a hx))
    have ha : f a = g a := h a (List.mem_cons_self a t)
    simp [List.filterMap_cons, ha, ht]

/-- Bridge between the executable `List.contains` and list membership. -/
theorem contains_iff_mem {l : List String} {a : String} :
    l.contains a = true ↔ a ∈ l := by
  simp [List.contains, List.elem_iff]

/-- Paths touched by `cleanItem` all belong to the item. -/
theorem doomed_subset (fs : Fs) (it : CleanItem) :
    ∀ d ∈ (if (itemErr fs it).isNone then primaryPaths it else []) ++ siblingPaths it,
      d ∈ allPaths it := by
  intro d hd
  rcases List.mem_append.mp hd with h | h
  · split at h
    · exact List.mem_append.mpr (Or.inl h)
    · cases h
  · exact List.mem_append.mpr (Or.inr h)

/-- Processing one item does not change the existence of any path outside the
item's own candidate paths. -/
theorem cleanItem_files_contains (fs : Fs) (it : CleanItem) {q : String}
    (hq : q ∉ allPaths it) :
    (cleanItem fs it).1.files.contains q = fs.files.contains q := by
  rcases hc : fs.files.contains q with _ | _
  · rcases hc2 : (cleanItem fs it).1.files.contains q with _ | _
    · rfl
    · have : q ∈ fs.files := by
        have := contains_iff_mem.mp hc2
        simp only [cleanItem] at this
        exact (List.mem_filter.mp this).1
      have hcontra := contains_iff_mem.mpr this
      rw [hc] at hcontra
      cases hcontra
  · have hmem : q ∈ fs.files := contains_iff_mem.mp hc
    have hnotdoomed :
        (!((if (itemErr fs it).isNone then primaryPaths it else [])
            ++ siblingPaths it).contains q) = true := by
      simp only [Bool.not_eq_eq_eq_not, Bool.not_true, ← Bool.not_eq_true]
      intro hcontra
      exact hq (doomed_subset fs it q (contains_iff_mem.mp hcontra))
    have : q ∈ (cleanItem fs it).1.files := by
      simp only [cleanItem]
      exact List.mem_filter.mpr ⟨hmem, hnotdoomed⟩
    rw [contains_iff_mem.mpr this]

/-- The locked set is untouched by `cleanItem`. -/
theorem cleanItem_locked (fs : Fs) (it : CleanItem) :
    (cleanItem fs it).1.locked = fs.locked := rfl

/-- The per-item outcome of an item is unchanged by first processing a
disjoint item. -/
theorem itemErr_cleanItem (fs : Fs) (it j : CleanItem)
    (h : ∀ q ∈ primaryPaths j, q ∉ allPaths it) :
    itemErr (cleanItem fs it).1 j = itemErr fs j := by
  have hfilter : (primaryPaths j).filter (fun p => (cleanItem fs it).1.files.contains p)
      = (primaryPaths j).filter (fun p => fs.files.contains p) :=
    List.filter_congr (fun q hq => cleanItem_files_contains fs it (h q hq))
  simp only [itemErr, hfilter, cleanItem_locked]

/-- For pairwise-disjoint items the batch outcome is determined item by item
against the initial filesystem: the error list is the in-order collection of
the per-item failures and the success count tallies the per-item successes. -/
theorem clean_artifacts_spec :
    ∀ (items : List CleanItem) (fs : Fs), items.Pairwise ItemsDisjoint →
      (clean_artifacts fs items).2.errors = items.filterMap (itemErr fs) ∧
      (clean_artifacts fs items).2.deleted_count
        = items.countP (fun it => (itemErr fs it).isNone)
  | [], fs, _ => by simp [clean_artifacts]
  | it :: rest, fs, hp => by
    obtain ⟨hhead, hrest⟩ := List.pairwise_cons.mp hp
    have hinv : ∀ j ∈ rest, itemErr (cleanItem fs it).1 j = itemErr fs j := by
      intro j hj
      apply itemErr_cleanItem
      intro q hq hqin
      exact (hhead j hj) q hqin (List.mem_append.mpr (Or.inl hq))
    obtain ⟨ih_err, ih_cnt⟩ := clean_artifacts_spec rest (cleanItem fs it).1 hrest
    have herr2 : (clean_artifacts (cleanItem fs it).1 rest).2.errors
        = rest.filterMap (itemErr fs) := by
      rw [ih_err]
      exact filterMap_congr_mem hinv
    have hcnt2 : (clean_artifacts (cleanItem fs it).1 rest).2.deleted_count
        = rest.countP (fun j => (itemErr fs j).isNone) := by
      rw [ih_cnt]
      refine List.countP_congr ?_
      intro j hj
      rw [hinv j hj]
    have hstep : (cleanItem fs it).2 = itemErr fs it := rfl
    cases h : itemErr fs it with
    | some e =>
      have hcl : clean_artifacts fs (it :: rest)
          = ((clean_artifacts (cleanItem fs it).1 rest).1,
             ⟨(clean_artifacts (cleanItem fs it).1 rest).2.deleted_count,
              e :: (clean_artifacts (cleanItem fs it).1 rest).2.errors⟩) := by
        simp only [clean_artifacts, hstep, h]
      rw [hcl]
      constructor
      · simp [List.filterMap_cons, h, herr2]
      · simp [List.countP_cons, h, hcnt2]
    | none =>
      have hcl : clean_artifacts fs (it :: rest)
          = ((clean_artifacts (cleanItem fs it).1 rest).1,
             ⟨(clean_artifacts (cleanItem fs it).1 rest).2.deleted_count + 1,
              (clean_artifacts (cleanItem fs it).1 rest).2.errors⟩) := by
        simp only [clean_artifacts, hstep, h]
      rw [hcl]
      constructor
      · simp [List.filterMap_cons, h, herr2]
      · simp [List.countP_cons, h, hcnt2]

mutual

/-- A tree whose corruption sits only inside hidden directories produces no
finding, whatever the enclosing path. -/
theorem scanEntry_eq_nil_of_hidden :
    ∀ t : FsEntry, corruptionHiddenOnly t = true → ∀ p, scanEntry p t = []
  | .file name data, h, p => by
    simp only [corruptionHiddenOnly, Option.isNone_iff_eq_none] at h
    simp [scanEntry, scanFile, h]
  | .dir name children, h, p => by
    simp only [corruptionHiddenOnly, Bool.or_eq_true] at h
    rcases hh : strStartsWith name "." with _ | _
    · have hc : corruptionHiddenOnlyList children = true := by
        rcases h with h | h
        · rw [hh] at h
          cases h
        · exact h
      simp [scanEntry, hh, scanList_eq_nil_of_hidden children hc]
    · simp [scanEntry, hh]

/-- List version of `scanEntry_eq_nil_of_hidden`. -/
theorem scanList_eq_nil_of_hidden :
    ∀ ts : List FsEntry, corruptionHiddenOnlyList ts = true → ∀ p, scanList p ts = []
  | [], _, p => by simp [scanList]
  | e :: es, h, p => by
    simp only [corruptionHiddenOnlyList, Bool.and_eq_true] at h
    simp [scanList, scanEntry_eq_nil_of_hidden e h.1, scanList_eq_nil_of_hidden es h.2]

end

/-- C2: `clean_artifacts` always returns a structured result and never fails
wholesale: the empty item list yields exactly deleted count 0 with no error,
and on any input every item is accounted exactly once — as a success or as one
per-item error string captured inside the result. -/
theorem clean_returns_structured_result (fs : Fs) (items : List CleanItem) :
    clean_artifacts fs [] = (fs, ⟨0, []⟩) ∧
    (clean_artifacts fs items).2.deleted_count
      + (clean_artifacts fs items).2.errors.length = items.length := by
  refine ⟨rfl, ?_⟩
  induction items generalizing fs with
  | nil => rfl
  | cons it rest ih =>
    have h2 := ih (cleanItem fs it).1
    cases h : (cleanItem fs it).2 with
    | some e =>
      have hcl : clean_artifacts fs (it :: rest)
          = ((clean_artifacts (cleanItem fs it).1 rest).1,
             ⟨(clean_artifacts (cleanItem fs it).1 rest).2.deleted_count,
              e :: (clean_artifacts (cleanItem fs it).1 rest).2.errors⟩) := by
        simp only [clean_artifacts, h]
      rw [hcl]
      simp only [List.length_cons]
      omega
    | none =>
      have hcl : clean_artifacts fs (it :: rest)
          = ((clean_artifacts (cleanItem fs it).1 rest).1,
             ⟨(clean_artifacts (cleanItem fs it).1 rest).2.deleted_count + 1,
              (clean_artifacts (cleanItem fs it).1 rest).2.errors⟩) := by
        simp only [clean_artifacts, h]
      rw [hcl]
      simp only [List.length_cons]
      omega

/-- C3: scan is idempotent on an unmodified tree: any two observed outputs of
the parallel scan over the same root and tree hold exactly the same set of
findings, whatever their order. -/
theorem scan_idempotent_as_set (root : String) (entries : List FsEntry)
    (l1 l2 : List InvalidArtifact)
    (h1 : ScanRun root entries l1) (h2 : ScanRun root entries l2) :
    ∀ a, a ∈ l1 ↔ a ∈ l2 :=
  fun _ => (h1.trans h2.symm).mem_iff

/-- C5: the scan never descends into a directory whose name starts with the
hidden-entry dot — such a directory contributes nothing whatever it holds —
and a repository whose corrupted files all sit inside hidden directories
scans to the empty result. -/
theorem scan_skips_hidden_dirs :
    (∀ (name : String) (children : List FsEntry) (p : String),
        strStartsWith name "." = true →
          scanEntry p (FsEntry.dir name children) = []) ∧
    (∀ (root : String) (entries : List FsEntry),
        corruptionHiddenOnlyList entries = true →
          scan_invalid_artifacts root entries = []) := by
  constructor
  · intro name children p h
    simp [scanEntry, h]
  · intro root entries h
    exact scanList_eq_nil_of_hidden entries h root

/-- C6: the content heuristic classifies a descriptor as invalid exactly when
its bytes contain at least one marker of the closed proxy-error-page set as a
case-sensitive substring; marker-free content is valid regardless of
descriptor well-formedness. -/
theorem content_heuristic_iff (content : List Char) :
    (contentReason (FileData.text content)).isSome
      ↔ ∃ m ∈ markers, ∃ pre post, content = pre ++ m ++ post := by
  constructor
  · intro h
    cases hf : markers.find? (fun m => occursIn m content) with
    | none => simp [contentReason, hf] at h
    | some m =>
      have hm := List.mem_of_find?_eq_some hf
      have hp : occursIn m content = true := by
        have hraw := List.find?_some hf
        simpa using hraw
      exact ⟨m, hm, (occursIn_iff m content).mp hp⟩
  · rintro ⟨m, hm, hsub⟩
    have hocc : occursIn m content = true := (occursIn_iff m content).mpr hsub
    have hex : (markers.find? (fun x => occursIn x content)).isSome :=
      List.find?_isSome.mpr ⟨m, hm, hocc⟩
    cases hf : markers.find? (fun x => occursIn x content) with
    | none => rw [hf] at hex; cases hex
    | some x => simp [contentReason, hf]

/-- C7: repository-path resolution tries its four strategies in the fixed
order, each failure falls through to the next, the first success is returned,
and the resolution error appears exactly when all four strategies fail. -/
theorem resolve_first_success_wins (s1 s2 s3 s4 : Option String) :
    (∀ p, get_maven_repo_path s1 s2 s3 s4 = .ok p
        ↔ [s1, s2, s3, s4].findSome? id = some p) ∧
    (get_maven_repo_path s1 s2 s3 s4
        = .error "ResolutionError: no viable repository path found"
      ↔ s1 = none ∧ s2 = none ∧ s3 = none ∧ s4 = none) := by
  rcases s1 with _ | p1 <;> rcases s2 with _ | p2 <;> rcases s3 with _ | p3 <;>
    rcases s4 with _ | p4 <;>
      simp [get_maven_repo_path, List.findSome?]

/-- When none of an item's primary files is permission-locked, the item
succeeds exactly when at least one primary file still exists. -/
theorem itemErr_isNone (fs : Fs) (it : CleanItem)
    (hunlocked : ∀ p ∈ primaryPaths it, fs.locked.contains p = false) :
    (itemErr fs it).isNone = !(itemGone fs it) := by
  have hpe : ((primaryPaths it).filter (fun p => fs.files.contains p)).isEmpty
      = itemGone fs it := by
    rw [Bool.eq_iff_iff]
    simp [List.isEmpty_iff, List.filter_eq_nil_iff, itemGone]
  have hlock : ((primaryPaths it).filter (fun p => fs.files.contains p)).any
      (fun p => fs.locked.contains p) = false := by
    rcases ha : ((primaryPaths it).filter (fun p => fs.files.contains p)).any
        (fun p => fs.locked.contains p) with _ | _
    · rfl
    · obtain ⟨p, hp, hptrue⟩ := List.any_eq_true.mp ha
      rw [hunlocked p (List.mem_filter.mp hp).1] at hptrue
      cases hptrue
  unfold itemErr
  simp only [hpe, hlock]
  rcases hg : itemGone fs it with _ | _ <;> simp [hg]

/-- C1: on a request of N pairwise-disjoint items none of whose primary files
is permission-locked, exactly the K items whose primary files are already gone
fail: the result reports `deleted_count = N - K` together with exactly K error
strings, and no single failure halts the processing of the remaining items. -/
theorem clean_partial_failure (fs : Fs) (items : List CleanItem)
    (hdisj : items.Pairwise ItemsDisjoint)
    (hunlocked : ∀ it ∈ items, ∀ p ∈ primaryPaths it, fs.locked.contains p = false) :
    (clean_artifacts fs items).2.deleted_count
        = items.length - items.countP (itemGone fs) ∧
    (clean_artifacts fs items).2.errors.length = items.countP (itemGone fs) := by
  obtain ⟨herr, hcnt⟩ := clean_artifacts_spec items fs hdisj
  constructor
  · rw [hcnt]
    have hc : items.countP (fun it => (itemErr fs it).isNone)
        = items.countP (fun it => !(itemGone fs it)) := by
      refine List.countP_congr ?_
      intro it hit
      rw [itemErr_isNone fs it (hunlocked it hit)]
    rw [hc, countP_not_eq]
  · rw [herr, length_filterMap_eq_countP]
    refine List.countP_congr ?_
    intro it hit
    have h1 := itemErr_isNone fs it (hunlocked it hit)
    cases ho : itemErr fs it <;> rw [ho] at h1 <;> simp at h1 <;> simp [h1]

/-- C4: for pairwise path-disjoint items `clean_artifacts` is
order-independent: every permutation of the item list yields the same
`deleted_count` and the same set of error strings. -/
theorem clean_order_independent (fs : Fs) (items1 items2 : List CleanItem)
    (hperm : items1.Perm items2) (hdisj : items1.Pairwise ItemsDisjoint) :
    (clean_artifacts fs items1).2.deleted_count
        = (clean_artifacts fs items2).2.deleted_count ∧
    ∀ e, e ∈ (clean_artifacts fs items1).2.errors
        ↔ e ∈ (clean_artifacts fs items2).2.errors := by
  have hsymm : ∀ a b : CleanItem, ItemsDisjoint a b → ItemsDisjoint b a := by
    intro a b h p hpb hpa
    exact h p hpa hpb
  have hdisj2 : items2.Pairwise ItemsDisjoint :=
    (hperm.pairwise_iff (fun hab => hsymm _ _ hab)).mp hdisj
  obtain ⟨herr1, hcnt1⟩ := clean_artifacts_spec items1 fs hdisj
  obtain ⟨herr2, hcnt2⟩ := clean_artifacts_spec items2 fs hdisj2
  constructor
  · rw [hcnt1, hcnt2]
    exact hperm.countP_eq _
  · intro e
    rw [herr1, herr2]
    exact (hperm.filterMap (itemErr fs)).mem_iff

/-- C8: the archive validator accepts at least the store/deflate, bzip2 and
zstd compression method families, and — independently for every supported
method — an archive truncated so its central directory is unreadable is
flagged by the scan with the archive-structure reason. -/
theorem archive_methods_and_truncation :
    methodSupported CompressionMethod.stored = true ∧
    methodSupported CompressionMethod.deflated = true ∧
    methodSupported CompressionMethod.bzip2 = true ∧
    methodSupported CompressionMethod.zstd = true ∧
    ∀ m : CompressionMethod, methodSupported m = true →
      archiveReason (FileData.archive [m] false) = none ∧
      ∀ (p name : String), strEndsWith name ".jar" = true →
        scanEntry p (FsEntry.file name (FileData.archive [m] true))
          = [⟨p, strDropRight name 4, "invalid archive structure"⟩] := by
  refine ⟨rfl, rfl, rfl, rfl, ?_⟩
  intro m hm
  constructor
  · simp [archiveReason, hm]
  · intro p name hn
    simp [scanEntry, scanFile, fileReason, hn, archiveReason]

/-- C9: once the backend clean call resolves, `cleanAll` empties the displayed
invalid-artifact list even when the returned result carries a non-empty error
list, so items whose deletion failed are no longer shown. -/
theorem cleanAll_clears_display (s : FrontendState) (confirmed : Bool)
    (invokeClean : List CleanItem → Except String CleanResult) (r : CleanResult)
    (hne : s.invalidArtifacts ≠ [])
    (hc : confirmed = true)
    (hok : invokeClean (s.invalidArtifacts.map toCleanItem) = .ok r) :
    (cleanAll s confirmed invokeClean).1.invalidArtifacts = [] := by
  have hec : s.invalidArtifacts.isEmpty = false := by
    rcases h : s.invalidArtifacts.isEmpty with _ | _
    · rfl
    · exact absurd (List.isEmpty_iff.mp h) hne
  subst hc
  simp only [cleanAll, hec, hok]
  rw [if_neg (show ¬(false = true) by simp), if_neg (show ¬(true = false) by simp)]
  split <;> rfl

/-- C10: with an empty invalid-artifact list `cleanAll` returns immediately —
no backend call, frontend state untouched — and whenever it does call the
backend the submitted items are exactly the `(folder, base_name)` projections
of the displayed artifacts, in display order. -/
theorem cleanAll_noop_and_submitted_items (s : FrontendState) (confirmed : Bool)
    (invokeClean : List CleanItem → Except String CleanResult) :
    (s.invalidArtifacts = [] → cleanAll s confirmed invokeClean = (s, none)) ∧
    (∀ items, (cleanAll s confirmed invokeClean).2 = some items →
      items = s.invalidArtifacts.map toCleanItem) := by
  constructor
  · intro h
    simp [cleanAll, h]
  · intro items hsome
    rcases he : s.invalidArtifacts.isEmpty with _ | _
    · rcases hcf : confirmed with _ | _
      · simp [cleanAll, he, hcf] at hsome
      · cases hr : invokeClean (s.invalidArtifacts.map toCleanItem) with
        | ok r =>
          simp only [cleanAll, he, hcf, hr] at hsome
          rw [if_neg (show ¬(false = true) by simp),
            if_neg (show ¬(true = false) by simp)] at hsome
          split at hsome <;> (simp at hsome; exact hsome.symm)
        | error e =>
          simp only [cleanAll, he, hcf, hr] at hsome
          rw [if_neg (show ¬(false = true) by simp),
            if_neg (show ¬(true = false) by simp)] at hsome
          simp at hsome
          exact hsome.symm
    · simp [cleanAll, he] at hsome

/-- The two demo items touch disjoint path sets. -/
theorem itemsDemo_pairwise : itemsDemo.Pairwise ItemsDisjoint := by
  have hd : ItemsDisjoint itemX itemY := by
    unfold ItemsDisjoint
    decide
  refine List.pairwise_cons.mpr ⟨?_, by simp⟩
  intro b hb
  rw [List.mem_singleton] at hb
  subst hb
  exact hd

/-- Concrete instance of `clean_partial_failure`: of two disjoint unlocked
items one is already gone, so the count is 2 - 1 and one error is reported. -/
theorem clean_partial_failure_witness :
    itemsDemo.Pairwise ItemsDisjoint ∧
    (∀ it ∈ itemsDemo, ∀ p ∈ primaryPaths it, fsDemo.locked.contains p = false) ∧
    (clean_artifacts fsDemo itemsDemo).2.deleted_count
        = itemsDemo.length - itemsDemo.countP (itemGone fsDemo) ∧
    (clean_artifacts fsDemo itemsDemo).2.errors.length
        = itemsDemo.countP (itemGone fsDemo) := by
  have hu : ∀ it ∈ itemsDemo, ∀ p ∈ primaryPaths it, fsDemo.locked.contains p = false := by
    decide
  obtain ⟨h1, h2⟩ := clean_partial_failure fsDemo itemsDemo itemsDemo_pairwise hu
  exact ⟨itemsDemo_pairwise, hu, h1, h2⟩

/-- Concrete instance of `scan_idempotent_as_set`: two opposite aggregation
orders of the same scan agree on membership. -/
theorem scan_idempotent_witness :
    ScanRun "r" demoEntries demoRun1 ∧ ScanRun "r" demoEntries demoRun2 ∧
      (artifactJar ∈ demoRun1 ↔ artifactJar ∈ demoRun2) := by
  have hp1 : demoRun1.Perm (scan_invalid_artifacts "r" demoEntries) := by decide
  have hp2 : demoRun2.Perm (scan_invalid_artifacts "r" demoEntries) := by decide
  exact ⟨hp1, hp2,
    scan_idempotent_as_set "r" demoEntries demoRun1 demoRun2 hp1 hp2 artifactJar⟩

/-- Concrete instance of `clean_order_independent`: swapping the two demo
items changes neither the count nor membership of the error list. -/
theorem clean_order_independent_witness :
    itemsDemo.Perm itemsDemoSwapped ∧ itemsDemo.Pairwise ItemsDisjoint ∧
    (clean_artifacts fsDemo itemsDemo).2.deleted_count
        = (clean_artifacts fsDemo itemsDemoSwapped).2.deleted_count ∧
    ("failed to delete b/y: file not found" ∈ (clean_artifacts fsDemo itemsDemo).2.errors
      ↔ "failed to delete b/y: file not found"
          ∈ (clean_artifacts fsDemo itemsDemoSwapped).2.errors) := by
  have hperm : itemsDemo.Perm itemsDemoSwapped := by decide
  obtain ⟨h1, h2⟩ := clean_order_independent fsDemo itemsDemo itemsDemoSwapped
    hperm itemsDemo_pairwise
  exact ⟨hperm, itemsDemo_pairwise, h1, h2 "failed to delete b/y: file not found"⟩

/-- Concrete instance of `scan_skips_hidden_dirs`: a corrupted archive inside
`.git` never surfaces, and `hiddenDemo` scans to the empty result. -/
theorem scan_skips_hidden_dirs_witness :
    strStartsWith ".git" "." = true ∧
    scanEntry "r" (FsEntry.dir ".git" [FsEntry.file "bad.jar" (FileData.archive [] true)]) = [] ∧
    corruptionHiddenOnlyList hiddenDemo = true ∧
    scan_invalid_artifacts "r" hiddenDemo = [] :=
  ⟨by decide,
   scan_skips_hidden_dirs.1 ".git" [FsEntry.file "bad.jar" (FileData.archive [] true)] "r"
     (by decide),
   by decide,
   scan_skips_hidden_dirs.2 "r" hiddenDemo (by decide)⟩

/-- Concrete instance of `archive_methods_and_truncation` at the bzip2
family. -/
theorem archive_methods_witness :
    methodSupported CompressionMethod.bzip2 = true ∧
    archiveReason (FileData.archive [CompressionMethod.bzip2] false) = none ∧
    strEndsWith "lib-1.0.jar" ".jar" = true ∧
    scanEntry "r/com/acme"
        (FsEntry.file "lib-1.0.jar" (FileData.archive [CompressionMethod.bzip2] true))
      = [⟨"r/com/acme", strDropRight "lib-1.0.jar" 4, "invalid archive structure"⟩] := by
  have hn : strEndsWith "lib-1.0.jar" ".jar" = true := by decide
  obtain ⟨h1, h2⟩ :=
    archive_methods_and_truncation.2.2.2.2 CompressionMethod.bzip2 rfl
  exact ⟨rfl, h1, hn, h2 "r/com/acme" "lib-1.0.jar" hn⟩

/-- Concrete instance of `cleanAll_clears_display`: the backend resolves with
an error-carrying result and the displayed list still becomes empty. -/
theorem cleanAll_clears_display_witness :
    stateWithA.invalidArtifacts ≠ [] ∧
    demoCleanResult.errors ≠ [] ∧
    invokeOkWithErrors (stateWithA.invalidArtifacts.map toCleanItem)
      = Except.ok demoCleanResult ∧
    (cleanAll stateWithA true invokeOkWithErrors).1.invalidArtifacts = [] := by
  refine ⟨by simp [stateWithA], by simp [demoCleanResult], rfl, ?_⟩
  exact cleanAll_clears_display stateWithA true invokeOkWithErrors demoCleanResult
    (by simp [stateWithA]) rfl rfl

/-- Concrete instance of `cleanAll_noop_and_submitted_items`: the empty state
is left untouched with no call, and the nonempty state submits exactly the
projection of its displayed artifact. -/
theorem cleanAll_noop_witness :
    stateNoArtifacts.invalidArtifacts = [] ∧
    cleanAll stateNoArtifacts true invokeOkWithErrors = (stateNoArtifacts, none) ∧
    (cleanAll stateWithA true invokeOkWithErrors).2 = some [⟨"r/com/acme", "bad"⟩] ∧
    ([⟨"r/com/acme", "bad"⟩] : List CleanItem) = stateWithA.invalidArtifacts.map toCleanItem := by
  refine ⟨rfl,
    (cleanAll_noop_and_submitted_items stateNoArtifacts true invokeOkWithErrors).1 rfl,
    ?_, ?_⟩
  · rfl
  · exact (cleanAll_noop_and_submitted_items stateWithA true invokeOkWithErrors).2
      [⟨"r/com/acme", "bad"⟩] rfl
